import Mathlib

/-!
Shallow embedding of the L-system tree generator of `src/tree.py`
(class `LSystem`: expression/condition evaluator, rule interpreter and
turtle kinematics), together with theorems settling the spec claims.

Modelling conventions:
* Python floats are modelled by exact rationals `ℚ`; arithmetic on
  non-degenerate inputs is the exact counterpart of the float operations.
  Python raises `ZeroDivisionError` on `x / 0.0` for floats, which the
  embedding mirrors with an explicit error value.
* `mathutils.Vector` and `mathutils.Quaternion` are modelled by records of
  rationals with the exact quaternion algebra used by Blender
  (Hamilton product, inverse = conjugate / squared norm, rotation matrix).
  The axis–angle constructor `Quaternion(axis, math.radians(angle))` is
  trigonometric and therefore kept as an abstract parameter `axisAngle`
  of the interpreter; no claim depends on its concrete values.
* The process-wide random source consulted by `random()` is modelled as a
  stream `rand : ℕ → ℚ` together with a cursor `randIdx` in the state;
  each call to `random()` reads `rand randIdx` and advances the cursor.
* The recursive interpreter (`evalRule` / `evalInstruction`) can diverge in
  Python; the embedding adds a fuel argument, decremented on each recursive
  step, with a dedicated `outOfFuel` error. Every terminating Python
  execution is reproduced by every sufficiently large fuel.
* Mesh construction (`createMesh`, `smoothTree`, bpy calls) is an external
  collaborator and is outside the embedded core, as is the Lark parser;
  concrete programs appear as the syntax trees the grammar assigns them.
-/

attribute [local semireducible] Rat.add Rat.mul Rat.sub Rat.inv Rat.ofScientific

namespace TreeGen

/-- Model of `mathutils.Vector((x, y, z))` with exact coordinates. -/
structure Vec3 where
  x : ℚ
  y : ℚ
  z : ℚ
deriving DecidableEq, Repr

/-- Vector addition. -/
def vadd (a b : Vec3) : Vec3 := ⟨a.x + b.x, a.y + b.y, a.z + b.z⟩

/-- Scaling a vector by a scalar, `Vector * float` in mathutils. -/
def vscale (a : Vec3) (c : ℚ) : Vec3 := ⟨a.x * c, a.y * c, a.z * c⟩

/-- Model of `mathutils.Quaternion` with components `(w, x, y, z)`;
`Quaternion()` is the identity `(1, 0, 0, 0)`. -/
structure Quat where
  w : ℚ
  x : ℚ
  y : ℚ
  z : ℚ
deriving DecidableEq, Repr

/-- The identity rotation `Quaternion()`. -/
def quatIdentity : Quat := ⟨1, 0, 0, 0⟩

/-- Hamilton product, `q1 @ q2` on quaternions in mathutils. -/
def quatMul (a b : Quat) : Quat :=
  ⟨a.w * b.w - a.x * b.x - a.y * b.y - a.z * b.z,
   a.w * b.x + a.x * b.w + a.y * b.z - a.z * b.y,
   a.w * b.y - a.x * b.z + a.y * b.w + a.z * b.x,
   a.w * b.z + a.x * b.y - a.y * b.x + a.z * b.w⟩

/-- Squared norm of a quaternion. -/
def quatNormSq (a : Quat) : ℚ := a.w * a.w + a.x * a.x + a.y * a.y + a.z * a.z

/-- Model of `Quaternion.inverted()`: conjugate divided by the squared norm
(Blender's `invert_qt`).  For the zero quaternion (never produced from the
identity by rotation composition) the `ℚ` convention `x / 0 = 0` applies. -/
def quatInv (a : Quat) : Quat :=
  let n := quatNormSq a
  ⟨a.w / n, -a.x / n, -a.y / n, -a.z / n⟩

/-- Rows of a 3×3 matrix. -/
structure Mat3 where
  r0 : Vec3
  r1 : Vec3
  r2 : Vec3
deriving DecidableEq, Repr

/-- Model of `Quaternion.to_matrix()`: the rotation matrix of a unit
quaternion (Blender's `quat_to_mat3`, exact arithmetic). -/
def quatToMatrix (q : Quat) : Mat3 :=
  ⟨⟨1 - 2 * (q.y * q.y + q.z * q.z), 2 * (q.x * q.y - q.w * q.z), 2 * (q.x * q.z + q.w * q.y)⟩,
   ⟨2 * (q.x * q.y + q.w * q.z), 1 - 2 * (q.x * q.x + q.z * q.z), 2 * (q.y * q.z - q.w * q.x)⟩,
   ⟨2 * (q.x * q.z - q.w * q.y), 2 * (q.y * q.z + q.w * q.x), 1 - 2 * (q.x * q.x + q.y * q.y)⟩⟩

/-- Matrix–vector product, `Matrix @ Vector` in mathutils. -/
def matVec (m : Mat3) (v : Vec3) : Vec3 :=
  ⟨m.r0.x * v.x + m.r0.y * v.y + m.r0.z * v.z,
   m.r1.x * v.x + m.r1.y * v.y + m.r1.z * v.z,
   m.r2.x * v.x + m.r2.y * v.y + m.r2.z * v.z⟩

/-- The world X axis `Vector((1, 0, 0))`. -/
def xAxis : Vec3 := ⟨1, 0, 0⟩

/-- The world Z axis `Vector((0, 0, 1))`. -/
def zAxis : Vec3 := ⟨0, 0, 1⟩

/-- Arithmetic expressions (`sum` / `product` / `atom` of the grammar). -/
inductive Expr where
  | number : ℚ → Expr
  | neg : Expr → Expr
  | var : String → Expr
  | add : Expr → Expr → Expr
  | sub : Expr → Expr → Expr
  | mul : Expr → Expr → Expr
  | div : Expr → Expr → Expr
  | noise : Expr → Expr → Expr
deriving Repr

/-- Boolean conditions (`binaryop` / `cond` of the grammar). -/
inductive Cond where
  | and : Cond → Cond → Cond
  | or : Cond → Cond → Cond
  | not : Cond → Cond
  | eq : Expr → Expr → Cond
  | neq : Expr → Expr → Cond
  | lt : Expr → Expr → Cond
  | le : Expr → Expr → Cond
  | gt : Expr → Expr → Cond
  | ge : Expr → Expr → Cond
deriving Repr

/-- A rule call `NAME "(" (sum ("," sum)*)? ")"`. -/
structure RuleCall where
  name : String
  args : List Expr
deriving Repr

mutual

/-- Instructions of a rule body (`instructions` of the grammar). -/
inductive Inst where
  | ruleCallInst : RuleCall → Inst
  | pitchInst : Expr → Inst
  | rollInst : Expr → Inst
  | createBranchInst : Expr → Expr → Inst
  | createLeafInst : Expr → Expr → Inst
  | pushInst : Inst
  | popInst : Inst
  | condInst : Cond → InstSeq → ElseB → Inst

/-- A sequence of instructions (`rulebody` of the grammar); a dedicated
mutual inductive rather than `List Inst`, so that structural recursion
over instruction trees is available. -/
inductive InstSeq where
  | nil : InstSeq
  | cons : Inst → InstSeq → InstSeq

/-- An optional `else` body of a conditional instruction. -/
inductive ElseB where
  | noneE : ElseB
  | someE : InstSeq → ElseB

end

/-- Conversion from a Lean list of instructions to an `InstSeq`. -/
def InstSeq.ofList : List Inst → InstSeq
  | [] => .nil
  | i :: rest => .cons i (InstSeq.ofList rest)

/-- A parsed program, the result of `LSystem.__init__`: the `loose:` flag,
the single top-level rule call (`self.axiom` in the source) and the rule
table `self.rules` mapping a rule name to its parameter names and body. -/
structure Program where
  useLoose : Bool
  startCall : RuleCall
  rules : List (String × List String × InstSeq)

/-- Rule lookup, `self.rules[ruleName]`.  `self.rules` is a Python dict
filled in source order, so a duplicated rule name keeps its last
definition; the reversed association list realises exactly that. -/
def lookupRule (prog : Program) (n : String) : Option (List String × InstSeq) :=
  (prog.rules.reverse).lookup n

/-- A variable-binding context, a Python dict from names to floats.
Later bindings are consed on the front, so the first match is the most
recent assignment, matching dict overwrite semantics. -/
abbrev Ctx : Type := List (String × ℚ)

/-- Runtime failures of the interpreter.  In Python all of them are raised
exceptions (`KeyError`, handwritten `Exception`s, `ZeroDivisionError`,
`IndexError`); `outOfFuel` is the embedding's marker for executions that
need more fuel than supplied. -/
inductive Err where
  | unknownRule : Err
  | arityError : Err
  | unboundVariable : String → Err
  | zeroDivisionError : Err
  | emptyStackError : Err
  | rootVertexIndexError : Err
  | outOfFuel : Err
deriving DecidableEq, Repr

/-- Model of `evalSum` (src/tree.py lines 254-274): evaluates an arithmetic
expression against a context, threading the random cursor `k`.  Python
float division raises `ZeroDivisionError` on a zero divisor; `noise` is
`left + right * (random()*2.0 - 1.0)`, consuming one draw after both
children are evaluated. -/
def evalSum (rand : ℕ → ℚ) : Expr → Ctx → ℕ → Except Err (ℚ × ℕ)
  | .add a b, ctx, k =>
    match evalSum rand a ctx k with
    | .error e => .error e
    | .ok (va, k1) =>
      match evalSum rand b ctx k1 with
      | .error e => .error e
      | .ok (vb, k2) => .ok (va + vb, k2)
  | .sub a b, ctx, k =>
    match evalSum rand a ctx k with
    | .error e => .error e
    | .ok (va, k1) =>
      match evalSum rand b ctx k1 with
      | .error e => .error e
      | .ok (vb, k2) => .ok (va - vb, k2)
  | .mul a b, ctx, k =>
    match evalSum rand a ctx k with
    | .error e => .error e
    | .ok (va, k1) =>
      match evalSum rand b ctx k1 with
      | .error e => .error e
      | .ok (vb, k2) => .ok (va * vb, k2)
  | .div a b, ctx, k =>
    match evalSum rand a ctx k with
    | .error e => .error e
    | .ok (va, k1) =>
      match evalSum rand b ctx k1 with
      | .error e => .error e
      | .ok (vb, k2) =>
        if vb = 0 then .error .zeroDivisionError else .ok (va / vb, k2)
  | .number q, _, k => .ok (q, k)
  | .neg a, ctx, k =>
    match evalSum rand a ctx k with
    | .error e => .error e
    | .ok (va, k1) => .ok (-va, k1)
  | .var n, ctx, k =>
    match List.lookup n ctx with
    | some v => .ok (v, k)
    | none => .error (.unboundVariable n)
  | .noise a b, ctx, k =>
    match evalSum rand a ctx k with
    | .error e => .error e
    | .ok (va, k1) =>
      match evalSum rand b ctx k1 with
      | .error e => .error e
      | .ok (vb, k2) => .ok (va + vb * (rand k2 * 2 - 1), k2 + 1)

/-- Model of `evalCondition` (src/tree.py lines 233-251).  Python's `and` /
`or` short-circuit: the right operand is only evaluated when the left one
does not already decide the result. -/
def evalCondition (rand : ℕ → ℚ) : Cond → Ctx → ℕ → Except Err (Bool × ℕ)
  | .and a b, ctx, k =>
    match evalCondition rand a ctx k with
    | .error e => .error e
    | .ok (va, k1) =>
      if va then evalCondition rand b ctx k1 else .ok (false, k1)
  | .or a b, ctx, k =>
    match evalCondition rand a ctx k with
    | .error e => .error e
    | .ok (va, k1) =>
      if va then .ok (true, k1) else evalCondition rand b ctx k1
  | .not a, ctx, k =>
    match evalCondition rand a ctx k with
    | .error e => .error e
    | .ok (va, k1) => .ok (!va, k1)
  | .eq a b, ctx, k =>
    match evalSum rand a ctx k with
    | .error e => .error e
    | .ok (va, k1) =>
      match evalSum rand b ctx k1 with
      | .error e => .error e
      | .ok (vb, k2) => .ok (decide (va = vb), k2)
  | .neq a b, ctx, k =>
    match evalSum rand a ctx k with
    | .error e => .error e
    | .ok (va, k1) =>
      match evalSum rand b ctx k1 with
      | .error e => .error e
      | .ok (vb, k2) => .ok (decide (va ≠ vb), k2)
  | .lt a b, ctx, k =>
    match evalSum rand a ctx k with
    | .error e => .error e
    | .ok (va, k1) =>
      match evalSum rand b ctx k1 with
      | .error e => .error e
      | .ok (vb, k2) => .ok (decide (va < vb), k2)
  | .le a b, ctx, k =>
    match evalSum rand a ctx k with
    | .error e => .error e
    | .ok (va, k1) =>
      match evalSum rand b ctx k1 with
      | .error e => .error e
      | .ok (vb, k2) => .ok (decide (va ≤ vb), k2)
  | .gt a b, ctx, k =>
    match evalSum rand a ctx k with
    | .error e => .error e
    | .ok (va, k1) =>
      match evalSum rand b ctx k1 with
      | .error e => .error e
      | .ok (vb, k2) => .ok (decide (vb < va), k2)
  | .ge a b, ctx, k =>
    match evalSum rand a ctx k with
    | .error e => .error e
    | .ok (va, k1) =>
      match evalSum rand b ctx k1 with
      | .error e => .error e
      | .ok (vb, k2) => .ok (decide (vb ≤ va), k2)

/-- Interpreter state: the turtle fields of the `LSystem` object
(`turtlePos`, `turtleQuat`, `currentVertexIndex`), the accumulated output
graph (`vertices`, `edges`, `leaves`), the branch stack `turtleQueue`, and
the embedding's cursor into the random stream. -/
structure ExecState where
  turtlePos : Vec3
  turtleQuat : Quat
  currentVertexIndex : ℕ
  vertices : List (Vec3 × ℚ)
  edges : List (ℕ × ℕ)
  leaves : List (Vec3 × ℚ)
  turtleQueue : List (ℕ × Vec3 × Quat)
  randIdx : ℕ
deriving DecidableEq, Repr

/-- The advanced point
`turtlePos + (turtleQuat.inverted().to_matrix() @ Vector((0,0,1))) * length`,
computed identically by `createBranch` and `createLeaf`. -/
def advancePoint (q : Quat) (pos : Vec3) (length : ℚ) : Vec3 :=
  vadd pos (vscale (matVec (quatToMatrix (quatInv q)) zAxis) length)

/-- Model of `createBranch` (src/tree.py lines 283-287): commit the advanced
point as the new turtle position, append a vertex, append an edge from the
previous current vertex to the new one, and move `currentVertexIndex`. -/
def createBranch (length radius : ℚ) (s : ExecState) : ExecState :=
  let newPos := advancePoint s.turtleQuat s.turtlePos length
  let newVertices := s.vertices ++ [(newPos, radius)]
  { s with
    turtlePos := newPos
    vertices := newVertices
    edges := s.edges ++ [(s.currentVertexIndex, newVertices.length - 1)]
    currentVertexIndex := newVertices.length - 1 }

/-- Model of `createLeaf` (src/tree.py lines 289-291): commit the advanced
point as the new turtle position (the same assignment to `self.turtlePos`
as in `createBranch`) and append it with the radius to `leaves`; no vertex,
no edge, and `currentVertexIndex` is untouched. -/
def createLeaf (length radius : ℚ) (s : ExecState) : ExecState :=
  let newPos := advancePoint s.turtleQuat s.turtlePos length
  { s with
    turtlePos := newPos
    leaves := s.leaves ++ [(newPos, radius)] }

/-- Model of `pitch` (src/tree.py lines 277-278): compose the orientation
with an axis–angle rotation about the turtle-local X axis.  `axisAngle`
abstracts `Quaternion(axis, math.radians(angle))`. -/
def pitch (axisAngle : Vec3 → ℚ → Quat) (angle : ℚ) (s : ExecState) : ExecState :=
  { s with
    turtleQuat :=
      quatMul s.turtleQuat
        (axisAngle (matVec (quatToMatrix (quatInv s.turtleQuat)) xAxis) angle) }

/-- Model of `roll` (src/tree.py lines 280-281): like `pitch` but about the
turtle-local Z axis. -/
def roll (axisAngle : Vec3 → ℚ → Quat) (angle : ℚ) (s : ExecState) : ExecState :=
  { s with
    turtleQuat :=
      quatMul s.turtleQuat
        (axisAngle (matVec (quatToMatrix (quatInv s.turtleQuat)) zAxis) angle) }

/-- Model of `pushPos` (src/tree.py lines 293-294): append a copy of
`(currentVertexIndex, turtlePos, turtleQuat)` to the branch stack. -/
def pushPos (s : ExecState) : ExecState :=
  { s with
    turtleQueue :=
      s.turtleQueue ++ [(s.currentVertexIndex, s.turtlePos, s.turtleQuat)] }

/-- Model of `popPos` (src/tree.py lines 296-297): remove the last saved
state and restore all three fields; Python's `list.pop()` on an empty list
raises, modelled by `emptyStackError`. -/
def popPos (s : ExecState) : Except Err ExecState :=
  match s.turtleQueue.getLast? with
  | none => .error .emptyStackError
  | some (j, pos, q) =>
    .ok { s with
          currentVertexIndex := j
          turtlePos := pos
          turtleQuat := q
          turtleQueue := s.turtleQueue.dropLast }

/-- The argument-binding loop of `evalRule` (src/tree.py lines 199-202):
for each parameter name in order, evaluate the matching argument expression
against the caller's context `ctx` and bind the result in the fresh context
`acc`; a later duplicate parameter overwrites an earlier one, realised by
consing on the front.  The final mismatched-length case is unreachable
after the arity check. -/
def bindArgs (rand : ℕ → ℚ) :
    List String → List Expr → Ctx → Ctx → ℕ → Except Err (Ctx × ℕ)
  | [], [], _, acc, k => .ok (acc, k)
  | n :: ps, a :: rest, ctx, acc, k =>
    match evalSum rand a ctx k with
    | .error e => .error e
    | .ok (v, k1) => bindArgs rand ps rest ctx ((n, v) :: acc) k1
  | _, _, _, _, _ => .error .arityError

/-- The three mutually recursive entry points of the interpreter:
a rule call, an instruction sequence, and a single instruction. -/
inductive Task where
  | ruleTask : RuleCall → Task
  | instsTask : InstSeq → Task
  | instTask : Inst → Task

/-- The recursive interpreter, combining `evalRule` (src/tree.py lines
188-206) and `evalInstruction` (lines 209-230) in one function structurally
recursive on fuel; each recursive step consumes one unit of fuel.
A rule call resolves the callee (`KeyError` → `unknownRule`), checks arity,
builds the fresh context with `bindArgs` and runs the body against it; an
instruction dispatches exactly as the Python tag dispatch does. -/
def evalT (rand : ℕ → ℚ) (axisAngle : Vec3 → ℚ → Quat) (prog : Program) :
    ℕ → Task → Ctx → ExecState → Except Err ExecState
  | 0, _, _, _ => .error .outOfFuel
  | f + 1, .ruleTask c, ctx, s =>
    match lookupRule prog c.name with
    | none => .error .unknownRule
    | some (params, body) =>
      if params.length ≠ c.args.length then .error .arityError
      else
        match bindArgs rand params c.args ctx [] s.randIdx with
        | .error e => .error e
        | .ok (newCtx, k) =>
          evalT rand axisAngle prog f (.instsTask body) newCtx { s with randIdx := k }
  | _ + 1, .instsTask .nil, _, s => .ok s
  | f + 1, .instsTask (.cons i rest), ctx, s =>
    match evalT rand axisAngle prog f (.instTask i) ctx s with
    | .error e => .error e
    | .ok s1 => evalT rand axisAngle prog f (.instsTask rest) ctx s1
  | f + 1, .instTask i, ctx, s =>
    match i with
    | .ruleCallInst c => evalT rand axisAngle prog f (.ruleTask c) ctx s
    | .pitchInst e =>
      match evalSum rand e ctx s.randIdx with
      | .error er => .error er
      | .ok (v, k) => .ok (pitch axisAngle v { s with randIdx := k })
    | .rollInst e =>
      match evalSum rand e ctx s.randIdx with
      | .error er => .error er
      | .ok (v, k) => .ok (roll axisAngle v { s with randIdx := k })
    | .createBranchInst le re =>
      match evalSum rand le ctx s.randIdx with
      | .error er => .error er
      | .ok (l, k1) =>
        match evalSum rand re ctx k1 with
        | .error er => .error er
        | .ok (r, k2) => .ok (createBranch l r { s with randIdx := k2 })
    | .createLeafInst le re =>
      match evalSum rand le ctx s.randIdx with
      | .error er => .error er
      | .ok (l, k1) =>
        match evalSum rand re ctx k1 with
        | .error er => .error er
        | .ok (r, k2) => .ok (createLeaf l r { s with randIdx := k2 })
    | .pushInst => .ok (pushPos s)
    | .popInst => popPos s
    | .condInst test thenB elseB =>
      match evalCondition rand test ctx s.randIdx with
      | .error er => .error er
      | .ok (b, k) =>
        if b then evalT rand axisAngle prog f (.instsTask thenB) ctx { s with randIdx := k }
        else
          match elseB with
          | .someE eb => evalT rand axisAngle prog f (.instsTask eb) ctx { s with randIdx := k }
          | .noneE => .ok { s with randIdx := k }

/-- `evalRule`, the rule-call entry point of the interpreter. -/
def evalRule (rand : ℕ → ℚ) (axisAngle : Vec3 → ℚ → Quat) (prog : Program)
    (fuel : ℕ) (c : RuleCall) (ctx : Ctx) (s : ExecState) : Except Err ExecState :=
  evalT rand axisAngle prog fuel (.ruleTask c) ctx s

/-- `evalInstruction`, the single-instruction entry point. -/
def evalInstruction (rand : ℕ → ℚ) (axisAngle : Vec3 → ℚ → Quat) (prog : Program)
    (fuel : ℕ) (i : Inst) (ctx : Ctx) (s : ExecState) : Except Err ExecState :=
  evalT rand axisAngle prog fuel (.instTask i) ctx s

/-- Sequential execution of an instruction sequence (the body loops of
`evalRule` and of the conditional branches). -/
def evalInsts (rand : ℕ → ℚ) (axisAngle : Vec3 → ℚ → Quat) (prog : Program)
    (fuel : ℕ) (l : InstSeq) (ctx : Ctx) (s : ExecState) : Except Err ExecState :=
  evalT rand axisAngle prog fuel (.instsTask l) ctx s

/-- The initial interpreter state built by `exec` (src/tree.py lines
170-177): turtle at the origin with the identity orientation, one sentinel
vertex `(origin, 1)`, `currentVertexIndex = 0`, and empty edge, leaf and
stack lists. -/
def initialState : ExecState :=
  { turtlePos := ⟨0, 0, 0⟩
    turtleQuat := quatIdentity
    currentVertexIndex := 0
    vertices := [(⟨0, 0, 0⟩, 1)]
    edges := []
    leaves := []
    turtleQueue := []
    randIdx := 0 }

/-- Model of `exec` (src/tree.py lines 169-183) up to the hand-off to the
mesh-building collaborator: run the top-level rule call in an empty context
from the initial state, then overwrite the sentinel's radius with the
radius of `vertices[1]`
(`self.vertices[0] = (self.vertices[0][0], self.vertices[1][1])`); with
fewer than two vertices that subscript raises `IndexError`, modelled by
`rootVertexIndexError`.  Returns `(vertices, edges, leaves)`. -/
def exec (rand : ℕ → ℚ) (axisAngle : Vec3 → ℚ → Quat) (prog : Program) (fuel : ℕ) :
    Except Err (List (Vec3 × ℚ) × List (ℕ × ℕ) × List (Vec3 × ℚ)) :=
  match evalRule rand axisAngle prog fuel prog.startCall [] initialState with
  | .error e => .error e
  | .ok s =>
    match s.vertices with
    | v0 :: v1 :: rest => .ok ((v0.1, v1.2) :: v1 :: rest, s.edges, s.leaves)
    | _ => .error .rootVertexIndexError

/-- An expression contains no `noise` node. -/
def noiseFreeExpr : Expr → Bool
  | .number _ => true
  | .neg a => noiseFreeExpr a
  | .var _ => true
  | .add a b => noiseFreeExpr a && noiseFreeExpr b
  | .sub a b => noiseFreeExpr a && noiseFreeExpr b
  | .mul a b => noiseFreeExpr a && noiseFreeExpr b
  | .div a b => noiseFreeExpr a && noiseFreeExpr b
  | .noise _ _ => false

/-- A condition contains no `noise` node. -/
def noiseFreeCond : Cond → Bool
  | .and a b => noiseFreeCond a && noiseFreeCond b
  | .or a b => noiseFreeCond a && noiseFreeCond b
  | .not a => noiseFreeCond a
  | .eq a b => noiseFreeExpr a && noiseFreeExpr b
  | .neq a b => noiseFreeExpr a && noiseFreeExpr b
  | .lt a b => noiseFreeExpr a && noiseFreeExpr b
  | .le a b => noiseFreeExpr a && noiseFreeExpr b
  | .gt a b => noiseFreeExpr a && noiseFreeExpr b
  | .ge a b => noiseFreeExpr a && noiseFreeExpr b

/-- Every expression of a list contains no `noise` node. -/
def noiseFreeExprs : List Expr → Bool
  | [] => true
  | e :: rest => noiseFreeExpr e && noiseFreeExprs rest

mutual

/-- An instruction contains no `noise` node in any of its expressions. -/
def noiseFreeInst : Inst → Bool
  | .ruleCallInst c => noiseFreeExprs c.args
  | .pitchInst e => noiseFreeExpr e
  | .rollInst e => noiseFreeExpr e
  | .createBranchInst le re => noiseFreeExpr le && noiseFreeExpr re
  | .createLeafInst le re => noiseFreeExpr le && noiseFreeExpr re
  | .pushInst => true
  | .popInst => true
  | .condInst test thenB elseB =>
    noiseFreeCond test && noiseFreeInsts thenB && noiseFreeElse elseB

/-- An instruction sequence contains no `noise` node. -/
def noiseFreeInsts : InstSeq → Bool
  | .nil => true
  | .cons i rest => noiseFreeInst i && noiseFreeInsts rest

/-- An optional else body contains no `noise` node. -/
def noiseFreeElse : ElseB → Bool
  | .noneE => true
  | .someE b => noiseFreeInsts b

end

/-- All rule bodies of a program contain no `noise` node (the hypothesis of
the determinism claim, literally: nothing is said about the axiom call's
argument expressions). -/
def ruleBodiesNoiseFree (prog : Program) : Bool :=
  prog.rules.all fun r => noiseFreeInsts r.2.2

/-- The whole program contains no `noise` node: all rule bodies and also
the argument expressions of the top-level axiom call. -/
def noiseFreeProgram (prog : Program) : Bool :=
  noiseFreeExprs prog.startCall.args && ruleBodiesNoiseFree prog

/-- The noise-freeness of the syntactic object each interpreter task
carries. -/
def taskNoiseFree : Task → Bool
  | .ruleTask c => noiseFreeExprs c.args
  | .instsTask l => noiseFreeInsts l
  | .instTask i => noiseFreeInst i

/-- Edge validity of a state: both endpoints of every recorded edge are
valid indices into `vertices`. -/
def EdgesValid (s : ExecState) : Prop :=
  ∀ e ∈ s.edges, e.1 < s.vertices.length ∧ e.2 < s.vertices.length

/-- The execution invariant: edges are valid, the current vertex index is
valid, and every vertex index saved on the branch stack is valid. -/
def StateInv (s : ExecState) : Prop :=
  EdgesValid s ∧ s.currentVertexIndex < s.vertices.length ∧
    ∀ t ∈ s.turtleQueue, t.1 < s.vertices.length

/-- A concrete constant random stream (models a random source all of whose
draws are `0`). -/
def rand0 : ℕ → ℚ := fun _ => 0

/-- A concrete constant random stream drawing `1/2` every time. -/
def randHalf : ℕ → ℚ := fun _ => 1 / 2

/-- A concrete instantiation of the abstract axis–angle constructor (its
values are irrelevant to every concrete execution below, none of which
pitches or rolls). -/
def axisAngle0 : Vec3 → ℚ → Quat := fun _ _ => quatIdentity

/-- The syntax tree the grammar assigns to the spec's concrete scenario
source `"loose: False\ninit()\ninit():\n^(2,1)^(3,0.5);\n"`. -/
def concreteProgram : Program :=
  { useLoose := false
    startCall := { name := "init", args := [] }
    rules := [("init", [],
      InstSeq.ofList
        [.createBranchInst (.number 2) (.number 1),
         .createBranchInst (.number 3) (.number (1 / 2))])] }

/-- A program whose rule bodies are noise-free but whose top-level call
carries a noise argument: `loose: False  init(0~1)  init(x): ^(1,x);`. -/
def noisyStartProgram : Program :=
  { useLoose := false
    startCall := { name := "init", args := [.noise (.number 0) (.number 1)] }
    rules := [("init", ["x"],
      InstSeq.ofList [.createBranchInst (.number 1) (.var "x")])] }

/-- A program whose axiom produces no vertex beyond the sentinel:
`loose: False  init()  init(): [;` (body is a single push). -/
def pushOnlyProgram : Program :=
  { useLoose := false
    startCall := { name := "init", args := [] }
    rules := [("init", [], InstSeq.ofList [.pushInst])] }

/-- A one-rule program used to exercise scope isolation: rule `g(y)` with
an empty body, called as `g(5)`. -/
def scopeProgram : Program :=
  { useLoose := false
    startCall := { name := "g", args := [.number 5] }
    rules := [("g", ["y"], InstSeq.nil)] }

/-- The state after running `concreteProgram`'s axiom from the initial
state: turtle at `(0,0,5)`, three vertices, two edges, no leaves. -/
def concreteFinalState : ExecState :=
  { turtlePos := ⟨0, 0, 5⟩
    turtleQuat := quatIdentity
    currentVertexIndex := 2
    vertices := [(⟨0, 0, 0⟩, 1), (⟨0, 0, 2⟩, 1), (⟨0, 0, 5⟩, 1 / 2)]
    edges := [(0, 1), (1, 2)]
    leaves := []
    turtleQueue := []
    randIdx := 0 }

/-- The state after running `pushOnlyProgram`'s axiom: only the pushed
turtle state differs from the initial state. -/
def pushOnlyFinalState : ExecState :=
  { initialState with turtleQueue := [(0, ⟨0, 0, 0⟩, quatIdentity)] }

deriving instance DecidableEq for Except

/-- Every binding produced by the argument-binding loop of `evalRule` is
either for one of the callee's parameter names or was already in the
accumulator. -/
theorem bindArgs_domain (rand : ℕ → ℚ) :
    ∀ (ps : List String) (es : List Expr) (ctx acc : Ctx) (k : ℕ) (ctx' : Ctx) (k' : ℕ),
      bindArgs rand ps es ctx acc k = .ok (ctx', k') →
      ∀ e ∈ ctx', e.1 ∈ ps ∨ e ∈ acc := by
  intro ps
  induction ps with
  | nil =>
    intro es ctx acc k ctx' k' h e he
    cases es with
    | nil =>
      simp only [bindArgs, Except.ok.injEq, Prod.mk.injEq] at h
      obtain ⟨rfl, rfl⟩ := h
      exact Or.inr he
    | cons a rest => simp [bindArgs] at h
  | cons n ps ih =>
    intro es ctx acc k ctx' k' h e he
    cases es with
    | nil => simp [bindArgs] at h
    | cons a rest =>
      simp only [bindArgs] at h
      cases hev : evalSum rand a ctx k with
      | error er =>
        simp only [hev] at h
        exact absurd h (by simp)
      | ok p =>
        obtain ⟨v, k1⟩ := p
        simp only [hev] at h
        rcases ih rest ctx ((n, v) :: acc) k1 ctx' k' h e he with h1 | h2
        · exact Or.inl (List.mem_cons_of_mem _ h1)
        · rcases List.mem_cons.mp h2 with h3 | h4
          · subst h3; exact Or.inl (List.mem_cons_self _ _)
          · exact Or.inr h4

/-- A name that is not a parameter of the callee and is unbound in the
accumulator stays unbound in the context built by the argument-binding
loop — in particular, caller-context bindings never leak in. -/
theorem bindArgs_lookup_none (rand : ℕ → ℚ) (v : String) :
    ∀ (ps : List String) (es : List Expr) (ctx acc : Ctx) (k : ℕ) (ctx' : Ctx) (k' : ℕ),
      bindArgs rand ps es ctx acc k = .ok (ctx', k') →
      v ∉ ps → List.lookup v acc = none → List.lookup v ctx' = none := by
  intro ps
  induction ps with
  | nil =>
    intro es ctx acc k ctx' k' h hv hacc
    cases es with
    | nil =>
      simp only [bindArgs, Except.ok.injEq, Prod.mk.injEq] at h
      obtain ⟨rfl, rfl⟩ := h
      exact hacc
    | cons a rest => simp [bindArgs] at h
  | cons n ps ih =>
    intro es ctx acc k ctx' k' h hv hacc
    cases es with
    | nil => simp [bindArgs] at h
    | cons a rest =>
      simp only [bindArgs] at h
      cases hev : evalSum rand a ctx k with
      | error er =>
        simp only [hev] at h
        exact absurd h (by simp)
      | ok p =>
        obtain ⟨v1, k1⟩ := p
        simp only [hev] at h
        have hvn : v ≠ n := fun hh => hv (hh ▸ List.mem_cons_self _ _)
        have hvp : v ∉ ps := fun hh => hv (List.mem_cons_of_mem _ hh)
        refine ih rest ctx ((n, v1) :: acc) k1 ctx' k' h hvp ?_
        simp [List.lookup_cons, beq_eq_false_iff_ne.mpr hvn, hacc]

/-- Looking up an unbound variable fails with the unbound-variable error
(src/tree.py lines 267-272). -/
theorem evalSum_var_unbound (rand : ℕ → ℚ) (v : String) (ctx : Ctx) (k : ℕ)
    (h : List.lookup v ctx = none) :
    evalSum rand (.var v) ctx k = .error (.unboundVariable v) := by
  simp [evalSum, h]

/-- C5: a rule call builds a brand-new context containing only the
callee's parameters bound by the argument-binding loop, runs the body in
exactly that context, and any name outside the parameter list — even one
bound in the caller's context — is unbound there, so referencing it fails
with the unbound-variable error. -/
theorem c5_scope_isolation (rand : ℕ → ℚ) (axA : Vec3 → ℚ → Quat) (prog : Program)
    (f : ℕ) (c : RuleCall) (ctx : Ctx) (s : ExecState) (params : List String)
    (body : InstSeq) (newCtx : Ctx) (k : ℕ) (v : String)
    (hlk : lookupRule prog c.name = some (params, body))
    (hlen : params.length = c.args.length)
    (hbind : bindArgs rand params c.args ctx [] s.randIdx = .ok (newCtx, k))
    (hv : v ∉ params) :
    evalRule rand axA prog (f + 1) c ctx s =
      evalInsts rand axA prog f body newCtx { s with randIdx := k } ∧
    (∀ e ∈ newCtx, e.1 ∈ params) ∧
    List.lookup v newCtx = none ∧
    (∀ k0, evalSum rand (.var v) newCtx k0 = .error (.unboundVariable v)) := by
  have hnone : List.lookup v newCtx = none :=
    bindArgs_lookup_none rand v params c.args ctx [] s.randIdx newCtx k hbind hv rfl
  refine ⟨?_, ?_, hnone, fun k0 => evalSum_var_unbound rand v newCtx k0 hnone⟩
  · simp [evalRule, evalT, evalInsts, hlk, hlen, hbind]
  · intro e he
    rcases bindArgs_domain rand params c.args ctx [] s.randIdx newCtx k hbind e he with h | h
    · exact h
    · simp at h

/-- C5, witness: calling `g(5)` from a context binding `x` runs `g`'s body
in the fresh context binding only `y`, and `x` is unbound there. -/
theorem c5_scope_isolation_witness :
    evalRule rand0 axisAngle0 scopeProgram (3 + 1) { name := "g", args := [.number 5] }
        [("x", 1)] initialState =
      evalInsts rand0 axisAngle0 scopeProgram 3 InstSeq.nil [("y", 5)]
        { initialState with randIdx := 0 } ∧
    (∀ e ∈ [("y", (5 : ℚ))], e.1 ∈ ["y"]) ∧
    List.lookup "x" [("y", (5 : ℚ))] = none ∧
    (∀ k0, evalSum rand0 (.var "x") [("y", (5 : ℚ))] k0 =
      .error (.unboundVariable "x")) :=
  c5_scope_isolation rand0 axisAngle0 scopeProgram 3 ⟨"g", [.number 5]⟩ [("x", 1)]
    initialState ["y"] InstSeq.nil [("y", 5)] 0 "x" rfl rfl rfl (by decide)

/-- C7: after the axiom returns, `exec` overwrites the sentinel's radius
with `vertices[1]`'s radius while keeping its position, and with fewer
than two vertices it fails with the root-vertex index error instead of
completing. -/
theorem c7_root_radius_post_pass (rand : ℕ → ℚ) (axA : Vec3 → ℚ → Quat)
    (prog : Program) (f : ℕ) (s : ExecState)
    (h : evalRule rand axA prog f prog.startCall [] initialState = .ok s) :
    (∀ v0 v1 rest, s.vertices = v0 :: v1 :: rest →
      exec rand axA prog f = .ok ((v0.1, v1.2) :: v1 :: rest, s.edges, s.leaves)) ∧
    (s.vertices.length < 2 → exec rand axA prog f = .error .rootVertexIndexError) := by
  constructor
  · intro v0 v1 rest hv
    simp [exec, h, hv]
  · intro hlen
    rcases hv : s.vertices with _ | ⟨v0, _ | ⟨v1, rest⟩⟩
    · simp [exec, h, hv]
    · simp [exec, h, hv]
    · rw [hv] at hlen
      simp at hlen
      omega

/-- C7, witness: the concrete scenario program completes with the
sentinel's radius overwritten, while the push-only program (no vertex
beyond the sentinel) fails with the root-vertex index error. -/
theorem c7_root_radius_post_pass_witness :
    exec rand0 axisAngle0 concreteProgram 10 =
        .ok ([(⟨0, 0, 0⟩, 1), (⟨0, 0, 2⟩, 1), (⟨0, 0, 5⟩, 1 / 2)],
          [(0, 1), (1, 2)], []) ∧
      exec rand0 axisAngle0 pushOnlyProgram 10 = .error .rootVertexIndexError := by
  constructor
  · exact (c7_root_radius_post_pass rand0 axisAngle0 concreteProgram 10
      concreteFinalState rfl).1 (⟨0, 0, 0⟩, 1) (⟨0, 0, 2⟩, 1) [(⟨0, 0, 5⟩, 1 / 2)] rfl
  · exact (c7_root_radius_post_pass rand0 axisAngle0 pushOnlyProgram 10
      pushOnlyFinalState rfl).2 (by decide)

/-- C2, counterexample: on `Div(1, 0)` the numerator evaluates fine and the
divisor evaluates to `0.0`, yet `evalSum` does fail — Python float division
raises `ZeroDivisionError` instead of returning `inf`/`nan`. -/
theorem c2_div_by_zero_counterexample :
    evalSum rand0 (.div (.number 1) (.number 0)) [] 0 = .error .zeroDivisionError := rfl

/-- C2, amended: for every `Div(a, b)` whose operands evaluate without
error and whose divisor evaluates to `0.0`, `evalSum` raises
`ZeroDivisionError` (Python float-division semantics), with no guard and
no `inf`/`nan` result. -/
theorem c2_div_by_zero_raises (rand : ℕ → ℚ) (a b : Expr) (ctx : Ctx) (k : ℕ)
    (va : ℚ) (k1 k2 : ℕ)
    (ha : evalSum rand a ctx k = .ok (va, k1))
    (hb : evalSum rand b ctx k1 = .ok (0, k2)) :
    evalSum rand (.div a b) ctx k = .error .zeroDivisionError := by
  simp [evalSum, ha, hb]

/-- C2, witness: `7 / 0` raises `ZeroDivisionError`. -/
theorem c2_div_by_zero_raises_witness :
    evalSum rand0 (.div (.number 7) (.number 0)) [] 0 = .error .zeroDivisionError :=
  c2_div_by_zero_raises rand0 (.number 7) (.number 0) [] 0 7 0 0 rfl rfl

/-- C4: evaluating `Noise(base, spread)` returns
`eval(base) + eval(spread) * (2*r - 1)` for the draw `r` made after both
children were evaluated, and whenever `r ∈ [0, 1)` the result lies in
`[eval(base) - |eval(spread)|, eval(base) + |eval(spread)|]`. -/
theorem c4_noise_value_and_bounds (rand : ℕ → ℚ) (base spread : Expr) (ctx : Ctx)
    (k : ℕ) (vb : ℚ) (k1 : ℕ) (vs : ℚ) (k2 : ℕ)
    (hb : evalSum rand base ctx k = .ok (vb, k1))
    (hs : evalSum rand spread ctx k1 = .ok (vs, k2))
    (h0 : 0 ≤ rand k2) (h1 : rand k2 < 1) :
    evalSum rand (.noise base spread) ctx k = .ok (vb + vs * (rand k2 * 2 - 1), k2 + 1) ∧
      vb - |vs| ≤ vb + vs * (rand k2 * 2 - 1) ∧
      vb + vs * (rand k2 * 2 - 1) ≤ vb + |vs| := by
  have habs : |vs * (rand k2 * 2 - 1)| ≤ |vs| := by
    rw [abs_mul]
    refine mul_le_of_le_one_right (abs_nonneg _) ?_
    rw [abs_le]
    constructor <;> linarith
  have hlo := (abs_le.mp habs).1
  have hhi := (abs_le.mp habs).2
  have hvlo := neg_abs_le vs
  refine ⟨?_, by linarith, by linarith⟩
  simp [evalSum, hb, hs]

/-- C4, witness: `Noise(3, 2)` under the all-zero random stream returns
`3 + 2 * (0*2 - 1) = 1`, inside `[3 - 2, 3 + 2]`. -/
theorem c4_noise_value_and_bounds_witness :
    evalSum rand0 (.noise (.number 3) (.number 2)) [] 0 =
        .ok (3 + 2 * (rand0 0 * 2 - 1), 0 + 1) ∧
      3 - |(2 : ℚ)| ≤ 3 + 2 * (rand0 0 * 2 - 1) ∧
      3 + 2 * (rand0 0 * 2 - 1) ≤ 3 + |(2 : ℚ)| :=
  c4_noise_value_and_bounds rand0 (.number 3) (.number 2) [] 0 3 0 2 0 rfl rfl
    (le_refl 0) zero_lt_one

/-- C10: condition evaluation short-circuits exactly as Python `and` / `or`
do — a false left operand of `And` and a true left operand of `Or` decide
the result without touching the right operand (whatever unbound variables
or noise draws it contains), and the concrete condition
`Or(Lt(0,1), Eq(Var("x"), 0))` succeeds with `true` in an empty context. -/
theorem c10_short_circuit (rand : ℕ → ℚ) (a b : Cond) (ctx : Ctx) (k k' : ℕ) :
    (evalCondition rand a ctx k = .ok (false, k') →
      evalCondition rand (.and a b) ctx k = .ok (false, k')) ∧
    (evalCondition rand a ctx k = .ok (true, k') →
      evalCondition rand (.or a b) ctx k = .ok (true, k')) ∧
    evalCondition rand (.or (.lt (.number 0) (.number 1)) (.eq (.var "x") (.number 0))) [] 0 =
      .ok (true, 0) := by
  refine ⟨fun h => ?_, fun h => ?_, ?_⟩
  · simp [evalCondition, h]
  · simp [evalCondition, h]
  · rfl

/-- C10, witness: a false comparison short-circuits `And` and a true one
short-circuits `Or`, in both cases next to a right operand whose
evaluation would raise an unbound-variable error. -/
theorem c10_short_circuit_witness :
    evalCondition rand0 (.and (.lt (.number 1) (.number 0)) (.eq (.var "zz") (.number 0))) [] 0 =
        .ok (false, 0) ∧
      evalCondition rand0 (.or (.gt (.number 1) (.number 0)) (.eq (.var "zz") (.number 0))) [] 0 =
        .ok (true, 0) :=
  ⟨(c10_short_circuit rand0 (.lt (.number 1) (.number 0)) (.eq (.var "zz") (.number 0))
      [] 0 0).1 rfl,
   (c10_short_circuit rand0 (.gt (.number 1) (.number 0)) (.eq (.var "zz") (.number 0))
      [] 0 0).2.1 rfl⟩

/-- C6: a `Push` immediately followed by a `Pop` restores position,
orientation and `currentVertexIndex` exactly, from any turtle state and
any output-graph contents. -/
theorem c6_push_pop_restores (rand : ℕ → ℚ) (axA : Vec3 → ℚ → Quat) (prog : Program)
    (f : ℕ) (ctx : Ctx) (s : ExecState) :
    ∃ s', evalInsts rand axA prog (f + 1 + 1 + 1)
        (InstSeq.ofList [.pushInst, .popInst]) ctx s = .ok s' ∧
      s'.turtlePos = s.turtlePos ∧ s'.turtleQuat = s.turtleQuat ∧
      s'.currentVertexIndex = s.currentVertexIndex := by
  refine ⟨s, ?_, rfl, rfl, rfl⟩
  cases s
  simp [evalInsts, InstSeq.ofList, evalT, pushPos, popPos]

/-- C3: the concrete scenario program produces exactly the sentinel vertex,
the vertex `(0,0,2)` with radius `1` and the vertex `(0,0,5)` with radius
`0.5`, the two edges `(0,1)` and `(1,2)`, no leaves, and the post-pass has
set the sentinel's radius to `vertices[1]`'s radius `1`. -/
theorem c3_concrete_scenario (rand : ℕ → ℚ) (axA : Vec3 → ℚ → Quat) :
    exec rand axA concreteProgram 10 =
      .ok ([(⟨0, 0, 0⟩, 1), (⟨0, 0, 2⟩, 1), (⟨0, 0, 5⟩, 1 / 2)],
        [(0, 1), (1, 2)], []) := rfl

/-- C1, counterexample: executing a `CreateLeaf(1, 1)` instruction from the
initial state does change the turtle's position — `createLeaf` assigns the
advanced point to `self.turtlePos` just as `createBranch` does. -/
theorem c1_leaf_counterexample :
    (evalInstruction rand0 axisAngle0 concreteProgram 2
        (.createLeafInst (.number 1) (.number 1)) [] initialState).map ExecState.turtlePos ≠
      .ok initialState.turtlePos := by decide

/-- C1, amended: a `CreateLeaf` instruction appends exactly one
`(point, radius)` pair to `leaves`, appends no vertex and no edge, leaves
`currentVertexIndex` and the branch stack unchanged — but it does commit
the advanced point back to the turtle position. -/
theorem c1_create_leaf_effects (rand : ℕ → ℚ) (axA : Vec3 → ℚ → Quat) (prog : Program)
    (f : ℕ) (le re : Expr) (ctx : Ctx) (s : ExecState) (l : ℚ) (k1 : ℕ) (r : ℚ) (k2 : ℕ)
    (hl : evalSum rand le ctx s.randIdx = .ok (l, k1))
    (hr : evalSum rand re ctx k1 = .ok (r, k2)) :
    ∃ s', evalInstruction rand axA prog (f + 1) (.createLeafInst le re) ctx s = .ok s' ∧
      s'.leaves = s.leaves ++ [(advancePoint s.turtleQuat s.turtlePos l, r)] ∧
      s'.vertices = s.vertices ∧ s'.edges = s.edges ∧
      s'.currentVertexIndex = s.currentVertexIndex ∧
      s'.turtleQueue = s.turtleQueue ∧
      s'.turtlePos = advancePoint s.turtleQuat s.turtlePos l := by
  refine ⟨createLeaf l r { s with randIdx := k2 }, ?_, ?_, ?_, ?_, ?_, ?_, ?_⟩
  · simp [evalInstruction, evalT, hl, hr]
  · simp [createLeaf]
  · simp [createLeaf]
  · simp [createLeaf]
  · simp [createLeaf]
  · simp [createLeaf]
  · simp [createLeaf]

/-- C1, witness: `CreateLeaf(1, 1)` from the initial state appends the leaf
`((0,0,1), 1)` and moves the turtle to `(0,0,1)`. -/
theorem c1_create_leaf_effects_witness :
    ∃ s', evalInstruction rand0 axisAngle0 concreteProgram (1 + 1)
        (.createLeafInst (.number 1) (.number 1)) [] initialState = .ok s' ∧
      s'.leaves = initialState.leaves ++
        [(advancePoint initialState.turtleQuat initialState.turtlePos 1, 1)] ∧
      s'.vertices = initialState.vertices ∧ s'.edges = initialState.edges ∧
      s'.currentVertexIndex = initialState.currentVertexIndex ∧
      s'.turtleQueue = initialState.turtleQueue ∧
      s'.turtlePos = advancePoint initialState.turtleQuat initialState.turtlePos 1 :=
  c1_create_leaf_effects rand0 axisAngle0 concreteProgram 1 (.number 1) (.number 1)
    [] initialState 1 0 1 0 rfl rfl

/-- The initial state satisfies the execution invariant. -/
theorem initialState_inv : StateInv initialState :=
  ⟨fun e he => absurd he (List.not_mem_nil e), Nat.one_pos,
   fun t ht => absurd ht (List.not_mem_nil t)⟩

/-- `createBranch` preserves the execution invariant: the new edge joins
the old current vertex to the freshly appended vertex, both valid. -/
theorem stateInv_createBranch (l r : ℚ) (s : ExecState) (h : StateInv s) :
    StateInv (createBranch l r s) := by
  obtain ⟨he, hc, hq⟩ := h
  refine ⟨?_, ?_, ?_⟩
  · intro e hme
    simp only [createBranch, List.length_append, List.length_cons,
      List.length_nil] at hme ⊢
    rcases List.mem_append.mp hme with h1 | h2
    · have := he e h1
      omega
    · simp only [List.mem_singleton] at h2
      subst h2
      simp only []
      omega
  · simp only [createBranch, List.length_append, List.length_cons, List.length_nil]
    omega
  · intro t ht
    simp only [createBranch, List.length_append, List.length_cons,
      List.length_nil] at ht ⊢
    have := hq t ht
    omega

/-- `pushPos` preserves the execution invariant: the saved index is the
current one, which is valid. -/
theorem stateInv_pushPos (s : ExecState) (h : StateInv s) : StateInv (pushPos s) := by
  obtain ⟨he, hc, hq⟩ := h
  refine ⟨he, hc, ?_⟩
  intro t ht
  simp only [pushPos] at ht
  rcases List.mem_append.mp ht with h1 | h2
  · exact hq t h1
  · simp only [List.mem_singleton] at h2
    subst h2
    exact hc

/-- `popPos` preserves the execution invariant: the restored index was
saved on the stack, hence valid, and the remaining stack is a sublist. -/
theorem stateInv_popPos (s s' : ExecState) (hp : popPos s = .ok s') (h : StateInv s) :
    StateInv s' := by
  obtain ⟨he, hc, hq⟩ := h
  unfold popPos at hp
  cases hg : s.turtleQueue.getLast? with
  | none =>
    simp only [hg] at hp
    exact Except.noConfusion hp
  | some p =>
    obtain ⟨j, pos, q⟩ := p
    simp only [hg] at hp
    obtain rfl := Except.ok.inj hp
    refine ⟨he, hq _ (List.mem_of_getLast?_eq_some hg), ?_⟩
    intro t ht
    exact hq t (List.dropLast_subset _ ht)

/-- Every interpreter step preserves the execution invariant. -/
theorem stateInv_evalT (rand : ℕ → ℚ) (axA : Vec3 → ℚ → Quat) (prog : Program) :
    ∀ (f : ℕ) (t : Task) (ctx : Ctx) (s s' : ExecState),
      evalT rand axA prog f t ctx s = .ok s' → StateInv s → StateInv s' := by
  intro f
  induction f with
  | zero =>
    intro t ctx s s' h
    exact absurd h (by simp [evalT])
  | succ f ih =>
    intro t ctx s s' h hs
    cases t with
    | ruleTask c =>
      simp only [evalT] at h
      cases hlk : lookupRule prog c.name with
      | none =>
        simp only [hlk] at h
        exact Except.noConfusion h
      | some pb =>
        obtain ⟨params, body⟩ := pb
        simp only [hlk] at h
        by_cases hlen : params.length ≠ c.args.length
        · rw [if_pos hlen] at h
          exact Except.noConfusion h
        · rw [if_neg hlen] at h
          cases hb : bindArgs rand params c.args ctx [] s.randIdx with
          | error er =>
            simp only [hb] at h
            exact Except.noConfusion h
          | ok p =>
            obtain ⟨newCtx, k⟩ := p
            simp only [hb] at h
            exact ih _ _ _ _ h hs
    | instsTask l =>
      cases l with
      | nil =>
        simp only [evalT] at h
        obtain rfl := Except.ok.inj h
        exact hs
      | cons i rest =>
        simp only [evalT] at h
        cases h1 : evalT rand axA prog f (.instTask i) ctx s with
        | error er =>
          simp only [h1] at h
          exact Except.noConfusion h
        | ok s1 =>
          simp only [h1] at h
          exact ih _ _ _ _ h (ih _ _ _ _ h1 hs)
    | instTask i =>
      cases i with
      | ruleCallInst c =>
        simp only [evalT] at h
        exact ih _ _ _ _ h hs
      | pitchInst e =>
        simp only [evalT] at h
        cases hev : evalSum rand e ctx s.randIdx with
        | error er =>
          simp only [hev] at h
          exact Except.noConfusion h
        | ok p =>
          obtain ⟨v, k⟩ := p
          simp only [hev] at h
          obtain rfl := Except.ok.inj h
          exact hs
      | rollInst e =>
        simp only [evalT] at h
        cases hev : evalSum rand e ctx s.randIdx with
        | error er =>
          simp only [hev] at h
          exact Except.noConfusion h
        | ok p =>
          obtain ⟨v, k⟩ := p
          simp only [hev] at h
          obtain rfl := Except.ok.inj h
          exact hs
      | createBranchInst le re =>
        simp only [evalT] at h
        cases hl : evalSum rand le ctx s.randIdx with
        | error er =>
          simp only [hl] at h
          exact Except.noConfusion h
        | ok p =>
          obtain ⟨l, k1⟩ := p
          simp only [hl] at h
          cases hr : evalSum rand re ctx k1 with
          | error er =>
            simp only [hr] at h
            exact Except.noConfusion h
          | ok p2 =>
            obtain ⟨r, k2⟩ := p2
            simp only [hr] at h
            obtain rfl := Except.ok.inj h
            exact stateInv_createBranch l r _ hs
      | createLeafInst le re =>
        simp only [evalT] at h
        cases hl : evalSum rand le ctx s.randIdx with
        | error er =>
          simp only [hl] at h
          exact Except.noConfusion h
        | ok p =>
          obtain ⟨l, k1⟩ := p
          simp only [hl] at h
          cases hr : evalSum rand re ctx k1 with
          | error er =>
            simp only [hr] at h
            exact Except.noConfusion h
          | ok p2 =>
            obtain ⟨r, k2⟩ := p2
            simp only [hr] at h
            obtain rfl := Except.ok.inj h
            exact hs
      | pushInst =>
        simp only [evalT] at h
        obtain rfl := Except.ok.inj h
        exact stateInv_pushPos s hs
      | popInst =>
        simp only [evalT] at h
        exact stateInv_popPos s s' h hs
      | condInst test thenB elseB =>
        simp only [evalT] at h
        cases hcd : evalCondition rand test ctx s.randIdx with
        | error er =>
          simp only [hcd] at h
          exact Except.noConfusion h
        | ok p =>
          obtain ⟨b, k⟩ := p
          simp only [hcd] at h
          cases b with
          | true =>
            rw [if_pos rfl] at h
            exact ih _ _ _ _ h hs
          | false =>
            rw [if_neg Bool.false_ne_true] at h
            cases elseB with
            | someE eb => exact ih _ _ _ _ h hs
            | noneE =>
              obtain rfl := Except.ok.inj h
              exact hs

/-- C8: the edge-validity invariant — every recorded edge's endpoints are
valid indices into `vertices` — is preserved by every single instruction
(including `Pop` restoring a saved index), and it holds of the final
output of `exec`. -/
theorem c8_edge_validity :
    (∀ (rand : ℕ → ℚ) (axA : Vec3 → ℚ → Quat) (prog : Program) (f : ℕ) (i : Inst)
        (ctx : Ctx) (s s' : ExecState), StateInv s →
      evalInstruction rand axA prog f i ctx s = .ok s' → StateInv s') ∧
    (∀ (rand : ℕ → ℚ) (axA : Vec3 → ℚ → Quat) (prog : Program) (f : ℕ)
        (vs : List (Vec3 × ℚ)) (es : List (ℕ × ℕ)) (ls : List (Vec3 × ℚ)),
      exec rand axA prog f = .ok (vs, es, ls) →
      ∀ e ∈ es, e.1 < vs.length ∧ e.2 < vs.length) := by
  constructor
  · intro rand axA prog f i ctx s s' hs h
    exact stateInv_evalT rand axA prog f _ ctx s s' h hs
  · intro rand axA prog f vs es ls h e he
    unfold exec at h
    cases hr : evalRule rand axA prog f prog.startCall [] initialState with
    | error er =>
      simp only [hr] at h
      exact Except.noConfusion h
    | ok s =>
      simp only [hr] at h
      have hinv : StateInv s :=
        stateInv_evalT rand axA prog f _ [] initialState s hr initialState_inv
      cases hv : s.vertices with
      | nil =>
        simp only [hv] at h
        exact Except.noConfusion h
      | cons v0 rest0 =>
        cases rest0 with
        | nil =>
          simp only [hv] at h
          exact Except.noConfusion h
        | cons v1 rest =>
          simp only [hv] at h
          obtain h3 := Except.ok.inj h
          simp only [Prod.mk.injEq] at h3
          obtain ⟨hvs, hes, hls⟩ := h3
          subst hvs
          subst hes
          subst hls
          have hb := hinv.1 e he
          rw [hv] at hb
          simp only [List.length_cons] at hb ⊢
          omega

/-- C8, witness: one `CreateBranch` step from the initial state keeps the
invariant, and the concrete scenario's final output has only valid
edges. -/
theorem c8_edge_validity_witness :
    StateInv (createBranch 1 1 initialState) ∧
      ∀ e ∈ [(0, 1), (1, 2)], e.1 < 3 ∧ e.2 < 3 :=
  ⟨c8_edge_validity.1 rand0 axisAngle0 concreteProgram 2
      (.createBranchInst (.number 1) (.number 1)) [] initialState
      (createBranch 1 1 initialState) initialState_inv rfl,
   c8_edge_validity.2 rand0 axisAngle0 concreteProgram 10
      [(⟨0, 0, 0⟩, 1), (⟨0, 0, 2⟩, 1), (⟨0, 0, 5⟩, 1 / 2)] [(0, 1), (1, 2)] [] rfl⟩

/-- A noise-free expression evaluates identically under any two random
streams (the random source is consulted only by `noise`). -/
theorem evalSum_rand_congr (r1 r2 : ℕ → ℚ) :
    ∀ (e : Expr) (ctx : Ctx) (k : ℕ), noiseFreeExpr e = true →
      evalSum r1 e ctx k = evalSum r2 e ctx k := by
  intro e
  induction e with
  | number q => intro ctx k h; rfl
  | var n => intro ctx k h; rfl
  | neg a iha =>
    intro ctx k h
    simp only [noiseFreeExpr] at h
    simp only [evalSum, iha ctx k h]
  | add a b iha ihb =>
    intro ctx k h
    simp only [noiseFreeExpr, Bool.and_eq_true] at h
    simp only [evalSum, iha ctx k h.1]
    cases hev : evalSum r2 a ctx k with
    | error er => rfl
    | ok p =>
      obtain ⟨va, k1⟩ := p
      simp only [ihb ctx k1 h.2]
  | sub a b iha ihb =>
    intro ctx k h
    simp only [noiseFreeExpr, Bool.and_eq_true] at h
    simp only [evalSum, iha ctx k h.1]
    cases hev : evalSum r2 a ctx k with
    | error er => rfl
    | ok p =>
      obtain ⟨va, k1⟩ := p
      simp only [ihb ctx k1 h.2]
  | mul a b iha ihb =>
    intro ctx k h
    simp only [noiseFreeExpr, Bool.and_eq_true] at h
    simp only [evalSum, iha ctx k h.1]
    cases hev : evalSum r2 a ctx k with
    | error er => rfl
    | ok p =>
      obtain ⟨va, k1⟩ := p
      simp only [ihb ctx k1 h.2]
  | div a b iha ihb =>
    intro ctx k h
    simp only [noiseFreeExpr, Bool.and_eq_true] at h
    simp only [evalSum, iha ctx k h.1]
    cases hev : evalSum r2 a ctx k with
    | error er => rfl
    | ok p =>
      obtain ⟨va, k1⟩ := p
      simp only [ihb ctx k1 h.2]
  | noise a b iha ihb =>
    intro ctx k h
    simp [noiseFreeExpr] at h

/-- A noise-free condition evaluates identically under any two random
streams. -/
theorem evalCondition_rand_congr (r1 r2 : ℕ → ℚ) :
    ∀ (c : Cond) (ctx : Ctx) (k : ℕ), noiseFreeCond c = true →
      evalCondition r1 c ctx k = evalCondition r2 c ctx k := by
  intro c
  induction c with
  | and a b iha ihb =>
    intro ctx k h
    simp only [noiseFreeCond, Bool.and_eq_true] at h
    simp only [evalCondition, iha ctx k h.1]
    cases hev : evalCondition r2 a ctx k with
    | error er => rfl
    | ok p =>
      obtain ⟨va, k1⟩ := p
      simp only [ihb ctx k1 h.2]
  | or a b iha ihb =>
    intro ctx k h
    simp only [noiseFreeCond, Bool.and_eq_true] at h
    simp only [evalCondition, iha ctx k h.1]
    cases hev : evalCondition r2 a ctx k with
    | error er => rfl
    | ok p =>
      obtain ⟨va, k1⟩ := p
      simp only [ihb ctx k1 h.2]
  | not a iha =>
    intro ctx k h
    simp only [noiseFreeCond] at h
    simp only [evalCondition, iha ctx k h]
  | eq a b =>
    intro ctx k h
    simp only [noiseFreeCond, Bool.and_eq_true] at h
    simp only [evalCondition, evalSum_rand_congr r1 r2 a ctx k h.1]
    cases hev : evalSum r2 a ctx k with
    | error er => rfl
    | ok p =>
      obtain ⟨va, k1⟩ := p
      simp only [evalSum_rand_congr r1 r2 b ctx k1 h.2]
  | neq a b =>
    intro ctx k h
    simp only [noiseFreeCond, Bool.and_eq_true] at h
    simp only [evalCondition, evalSum_rand_congr r1 r2 a ctx k h.1]
    cases hev : evalSum r2 a ctx k with
    | error er => rfl
    | ok p =>
      obtain ⟨va, k1⟩ := p
      simp only [evalSum_rand_congr r1 r2 b ctx k1 h.2]
  | lt a b =>
    intro ctx k h
    simp only [noiseFreeCond, Bool.and_eq_true] at h
    simp only [evalCondition, evalSum_rand_congr r1 r2 a ctx k h.1]
    cases hev : evalSum r2 a ctx k with
    | error er => rfl
    | ok p =>
      obtain ⟨va, k1⟩ := p
      simp only [evalSum_rand_congr r1 r2 b ctx k1 h.2]
  | le a b =>
    intro ctx k h
    simp only [noiseFreeCond, Bool.and_eq_true] at h
    simp only [evalCondition, evalSum_rand_congr r1 r2 a ctx k h.1]
    cases hev : evalSum r2 a ctx k with
    | error er => rfl
    | ok p =>
      obtain ⟨va, k1⟩ := p
      simp only [evalSum_rand_congr r1 r2 b ctx k1 h.2]
  | gt a b =>
    intro ctx k h
    simp only [noiseFreeCond, Bool.and_eq_true] at h
    simp only [evalCondition, evalSum_rand_congr r1 r2 a ctx k h.1]
    cases hev : evalSum r2 a ctx k with
    | error er => rfl
    | ok p =>
      obtain ⟨va, k1⟩ := p
      simp only [evalSum_rand_congr r1 r2 b ctx k1 h.2]
  | ge a b =>
    intro ctx k h
    simp only [noiseFreeCond, Bool.and_eq_true] at h
    simp only [evalCondition, evalSum_rand_congr r1 r2 a ctx k h.1]
    cases hev : evalSum r2 a ctx k with
    | error er => rfl
    | ok p =>
      obtain ⟨va, k1⟩ := p
      simp only [evalSum_rand_congr r1 r2 b ctx k1 h.2]

/-- The argument-binding loop is random-stream independent when all
argument expressions are noise-free. -/
theorem bindArgs_rand_congr (r1 r2 : ℕ → ℚ) :
    ∀ (ps : List String) (es : List Expr) (ctx acc : Ctx) (k : ℕ),
      noiseFreeExprs es = true →
      bindArgs r1 ps es ctx acc k = bindArgs r2 ps es ctx acc k := by
  intro ps
  induction ps with
  | nil => intro es ctx acc k h; cases es <;> rfl
  | cons n ps ih =>
    intro es ctx acc k h
    cases es with
    | nil => rfl
    | cons a rest =>
      simp only [noiseFreeExprs, Bool.and_eq_true] at h
      simp only [bindArgs, evalSum_rand_congr r1 r2 a ctx k h.1]
      cases hev : evalSum r2 a ctx k with
      | error er => rfl
      | ok p =>
        obtain ⟨v, k1⟩ := p
        exact ih rest ctx ((n, v) :: acc) k1 h.2

/-- A successful lookup in an association list finds a member pair. -/
theorem lookup_mem {α β : Type _} [BEq α] [LawfulBEq α] {l : List (α × β)}
    {k : α} {b : β} (h : l.lookup k = some b) : (k, b) ∈ l := by
  rcases List.lookup_eq_some_iff.mp h with ⟨l1, l2, rfl, h2⟩
  simp

/-- When every rule body of the program is noise-free, so is the body
returned by rule lookup. -/
theorem lookupRule_body_noiseFree {prog : Program} {n : String}
    {params : List String} {body : InstSeq}
    (hp : ruleBodiesNoiseFree prog = true)
    (h : lookupRule prog n = some (params, body)) :
    noiseFreeInsts body = true := by
  have hm : (n, params, body) ∈ prog.rules.reverse := lookup_mem h
  rw [List.mem_reverse] at hm
  have := List.all_eq_true.mp hp _ hm
  simpa using this

/-- The interpreter is random-stream independent on noise-free input: if
every rule body of the program is noise-free and the task at hand is
noise-free, any two random streams give the same outcome. -/
theorem evalT_rand_congr (r1 r2 : ℕ → ℚ) (axA : Vec3 → ℚ → Quat) (prog : Program)
    (hp : ruleBodiesNoiseFree prog = true) :
    ∀ (f : ℕ) (t : Task) (ctx : Ctx) (s : ExecState), taskNoiseFree t = true →
      evalT r1 axA prog f t ctx s = evalT r2 axA prog f t ctx s := by
  intro f
  induction f with
  | zero => intro t ctx s h; rfl
  | succ f ih =>
    intro t ctx s ht
    cases t with
    | ruleTask c =>
      simp only [taskNoiseFree] at ht
      simp only [evalT]
      cases hlk : lookupRule prog c.name with
      | none => rfl
      | some pb =>
        obtain ⟨params, body⟩ := pb
        dsimp only
        by_cases hlen : params.length ≠ c.args.length
        · simp only [if_pos hlen]
        · simp only [if_neg hlen]
          rw [bindArgs_rand_congr r1 r2 params c.args ctx [] s.randIdx ht]
          cases hb : bindArgs r2 params c.args ctx [] s.randIdx with
          | error er => rfl
          | ok p =>
            obtain ⟨newCtx, k⟩ := p
            exact ih (.instsTask body) newCtx _ (lookupRule_body_noiseFree hp hlk)
    | instsTask l =>
      cases l with
      | nil => rfl
      | cons i rest =>
        simp only [taskNoiseFree, noiseFreeInsts, Bool.and_eq_true] at ht
        simp only [evalT]
        rw [ih (.instTask i) ctx s (by simpa [taskNoiseFree] using ht.1)]
        cases h1 : evalT r2 axA prog f (.instTask i) ctx s with
        | error er => rfl
        | ok s1 => exact ih (.instsTask rest) ctx s1 (by simpa [taskNoiseFree] using ht.2)
    | instTask i =>
      cases i with
      | ruleCallInst c =>
        simp only [taskNoiseFree, noiseFreeInst] at ht
        simp only [evalT]
        exact ih (.ruleTask c) ctx s (by simpa [taskNoiseFree] using ht)
      | pitchInst e =>
        simp only [taskNoiseFree, noiseFreeInst] at ht
        simp only [evalT, evalSum_rand_congr r1 r2 e ctx s.randIdx ht]
      | rollInst e =>
        simp only [taskNoiseFree, noiseFreeInst] at ht
        simp only [evalT, evalSum_rand_congr r1 r2 e ctx s.randIdx ht]
      | createBranchInst le re =>
        simp only [taskNoiseFree, noiseFreeInst, Bool.and_eq_true] at ht
        simp only [evalT, evalSum_rand_congr r1 r2 le ctx s.randIdx ht.1]
        cases hl : evalSum r2 le ctx s.randIdx with
        | error er => rfl
        | ok p =>
          obtain ⟨l, k1⟩ := p
          simp only [evalSum_rand_congr r1 r2 re ctx k1 ht.2]
      | createLeafInst le re =>
        simp only [taskNoiseFree, noiseFreeInst, Bool.and_eq_true] at ht
        simp only [evalT, evalSum_rand_congr r1 r2 le ctx s.randIdx ht.1]
        cases hl : evalSum r2 le ctx s.randIdx with
        | error er => rfl
        | ok p =>
          obtain ⟨l, k1⟩ := p
          simp only [evalSum_rand_congr r1 r2 re ctx k1 ht.2]
      | pushInst => rfl
      | popInst => rfl
      | condInst test thenB elseB =>
        simp only [taskNoiseFree, noiseFreeInst, Bool.and_eq_true] at ht
        simp only [evalT, evalCondition_rand_congr r1 r2 test ctx s.randIdx ht.1.1]
        cases hcd : evalCondition r2 test ctx s.randIdx with
        | error er => rfl
        | ok p =>
          obtain ⟨b, k⟩ := p
          dsimp only
          cases b with
          | true =>
            rw [if_pos rfl, if_pos rfl]
            exact ih (.instsTask thenB) ctx _ (by simpa [taskNoiseFree] using ht.1.2)
          | false =>
            rw [if_neg Bool.false_ne_true, if_neg Bool.false_ne_true]
            cases elseB with
            | someE eb =>
              exact ih (.instsTask eb) ctx _ (by simpa [taskNoiseFree, noiseFreeElse] using ht.2)
            | noneE => rfl

/-- C9, counterexample: a program whose rule bodies are all noise-free but
whose top-level call carries a noise argument gives different outputs
under different random sources — the claim's hypothesis covers only rule
bodies and is too weak. -/
theorem c9_determinism_counterexample :
    ruleBodiesNoiseFree noisyStartProgram = true ∧
      exec rand0 axisAngle0 noisyStartProgram 10 ≠
        exec randHalf axisAngle0 noisyStartProgram 10 := by
  constructor
  · decide
  · decide

/-- C9, amended: for every program all of whose rule bodies and all of
whose top-level call arguments are noise-free, any two random sources
(hence any two executions of `run`) give identical vertex, edge and leaf
sequences. -/
theorem c9_determinism_noise_free (r1 r2 : ℕ → ℚ) (axA : Vec3 → ℚ → Quat)
    (prog : Program) (f : ℕ) (h : noiseFreeProgram prog = true) :
    exec r1 axA prog f = exec r2 axA prog f := by
  simp only [noiseFreeProgram, Bool.and_eq_true] at h
  unfold exec evalRule
  rw [evalT_rand_congr r1 r2 axA prog h.2 f (.ruleTask prog.startCall) [] initialState
    (by simpa [taskNoiseFree] using h.1)]

/-- C9, witness: the concrete scenario program is fully noise-free and its
two executions under different random sources agree. -/
theorem c9_determinism_noise_free_witness :
    noiseFreeProgram concreteProgram = true ∧
      exec rand0 axisAngle0 concreteProgram 10 =
        exec randHalf axisAngle0 concreteProgram 10 :=
  ⟨by decide,
   c9_determinism_noise_free rand0 randHalf axisAngle0 concreteProgram 10 (by decide)⟩

end TreeGen
